import Mathlib

/-!
Verification of the decent-mobility engine.

This file gives a shallow embedding of the core logic of the repository:

* `Mobility` embeds `src/mobility/__init__.py`: the entity model
  (locations, needs, alternatives, agents), the need-alternative matcher
  `Agent.iter_np`, the decent-mobility predicate `Agent.has_decent_mobility`
  and the aggregate `Agent.total_distance`.
* `PersonaMod` embeds `src/mobility/persona.py` and `src/mobility/alternative.py`:
  the destination-indexed trip selector `Persona.compute_trips`.
* `Retreat` embeds `src/mobility/retreat.py`: the time-budgeted decent-mobility
  predicate over a `TravelPlan`.

Numeric fields that are Python floats are modelled exactly over `ℚ`.
Python dictionaries are modelled as insertion-ordered association lists with
last-write-wins assignment (`dictInsert`), matching CPython semantics: an
assignment to an existing key overwrites the value in place and keeps the
key's original position, a new key is appended.  Python's `random.choices`
is modelled by an explicit index stream `pick`, so that theorems quantify
over every possible outcome of the random draws.  Exceptions are modelled
with `Except`.
-/

namespace DecentMobility

section Table

variable {K V : Type} [DecidableEq K]

/-- Lookup in an association table, mirroring `dict.__getitem__` /
`key in dict` on the tables built below. -/
def tableLookup : List (K × V) → K → Option V
  | [], _ => none
  | (k₂, v) :: rest, k => if k₂ = k then some v else tableLookup rest k

/-- Assignment `d[k] = v` on a Python dict: overwrite in place if the key is
present (keeping its original position), append otherwise. -/
def dictInsert : List (K × V) → K → V → List (K × V)
  | [], k, v => [(k, v)]
  | (k₂, v₂) :: rest, k, v =>
    if k₂ = k then (k, v) :: rest else (k₂, v₂) :: dictInsert rest k v

/-- Last element of a list satisfying a predicate, if any.  This is the value
that survives a sequence of last-write-wins dict assignments. -/
def lastMatch (p : α → Bool) : List α → Option α
  | [] => none
  | x :: xs =>
    match lastMatch p xs with
    | some y => some y
    | none => if p x then some x else none

theorem tableLookup_dictInsert_self (t : List (K × V)) (k : K) (v : V) :
    tableLookup (dictInsert t k v) k = some v := by
  induction t with
  | nil => simp [dictInsert, tableLookup]
  | cons hd rest ih =>
    obtain ⟨k₂, v₂⟩ := hd
    by_cases hk : k₂ = k <;> simp [dictInsert, tableLookup, hk, ih]

theorem tableLookup_dictInsert_ne (t : List (K × V)) (k k₂ : K) (v : V)
    (h : k₂ ≠ k) : tableLookup (dictInsert t k v) k₂ = tableLookup t k₂ := by
  induction t with
  | nil => simp [dictInsert, tableLookup, Ne.symm h]
  | cons hd rest ih =>
    obtain ⟨k₃, v₃⟩ := hd
    by_cases hk : k₃ = k
    · subst hk
      simp [dictInsert, tableLookup, Ne.symm h]
    · by_cases hk₂ : k₃ = k₂ <;> simp [dictInsert, tableLookup, hk, hk₂, h, ih]

theorem keys_dictInsert (t : List (K × V)) (k : K) (v : V) :
    (dictInsert t k v).map Prod.fst =
      if k ∈ t.map Prod.fst then t.map Prod.fst else t.map Prod.fst ++ [k] := by
  induction t with
  | nil => simp [dictInsert]
  | cons hd rest ih =>
    obtain ⟨k₂, v₂⟩ := hd
    by_cases hk : k₂ = k
    · simp [dictInsert, hk]
    · by_cases hmem : k ∈ rest.map Prod.fst <;>
        simp [dictInsert, hk, Ne.symm hk, hmem, ih]

theorem nodup_keys_dictInsert (t : List (K × V)) (k : K) (v : V)
    (h : (t.map Prod.fst).Nodup) : ((dictInsert t k v).map Prod.fst).Nodup := by
  rw [keys_dictInsert]
  by_cases hmem : k ∈ t.map Prod.fst
  · simpa [hmem] using h
  · simp only [hmem, if_false]
    rw [List.nodup_append]
    exact ⟨h, List.nodup_singleton k, by simpa using hmem⟩

theorem tableLookup_mem {t : List (K × V)} {k : K} {v : V}
    (h : tableLookup t k = some v) : (k, v) ∈ t := by
  induction t with
  | nil => simp [tableLookup] at h
  | cons hd rest ih =>
    obtain ⟨k₂, v₂⟩ := hd
    by_cases hk : k₂ = k
    · subst hk
      simp [tableLookup] at h
      simp [h]
    · simp only [tableLookup, hk, if_false] at h
      exact List.mem_cons_of_mem _ (ih h)

theorem lastMatch_eq_some {p : α → Bool} {l : List α} {x : α}
    (h : lastMatch p l = some x) : x ∈ l ∧ p x = true := by
  induction l with
  | nil => simp [lastMatch] at h
  | cons hd rest ih =>
    simp only [lastMatch] at h
    cases hr : lastMatch p rest with
    | some y =>
      rw [hr] at h
      injection h with h
      subst h
      obtain ⟨hmem, hp⟩ := ih hr
      exact ⟨List.mem_cons_of_mem _ hmem, hp⟩
    | none =>
      rw [hr] at h
      by_cases hp : p hd
      · simp [hp] at h
        subst h
        exact ⟨List.mem_cons_self _ _, hp⟩
      · simp [hp] at h

theorem lastMatch_isSome {p : α → Bool} {l : List α} {x : α}
    (hmem : x ∈ l) (hp : p x = true) : (lastMatch p l).isSome := by
  induction l with
  | nil => simp at hmem
  | cons hd rest ih =>
    simp only [lastMatch]
    cases hr : lastMatch p rest with
    | some y => simp
    | none =>
      rcases List.mem_cons.mp hmem with h | h
      · subst h
        simp [hp]
      · have := ih h
        rw [hr] at this
        simp at this

theorem lastMatch_eq_none {p : α → Bool} {l : List α}
    (h : ∀ x ∈ l, p x = false) : lastMatch p l = none := by
  induction l with
  | nil => rfl
  | cons hd rest ih =>
    simp only [lastMatch]
    rw [ih fun x hx => h x (List.mem_cons_of_mem _ hx)]
    simp [h hd (List.mem_cons_self _ _)]

end Table

namespace Mobility

/-- Enumeration `LocationType = Enum("LocationType", "home work")`. -/
inductive LocationType where
  | home
  | work
  deriving DecidableEq

/-- Enumeration `TripPurpose = Enum("TripPurpose", "commute other")`. -/
inductive TripPurpose where
  | commute
  | other
  deriving DecidableEq

/-- `GridLocation`: a location as (x, y) coordinates on a square grid.
The Euclidean-distance helper `distance_to` is an out-of-scope geometric
collaborator (spec §1); matching only uses structural equality of locations,
which is embedded by `DecidableEq`. -/
structure GridLocation where
  x : ℚ
  y : ℚ
  deriving DecidableEq

/-- `Need`: a derived need for mobility. -/
structure Need where
  purpose : TripPurpose
  origin : LocationType
  destination : LocationType
  /-- Number of times the trip must be made in a typical week. -/
  count : ℤ
  deriving DecidableEq

/-- `Alternative`: a specific transport alternative for a trip.  `distance`
is fixed at construction time (`__post_init__` calls `update_distance`); the
matcher and the aggregates below only read it. -/
structure Alternative where
  origin : GridLocation
  destination : GridLocation
  mode : String
  cost : ℚ := 0
  distance : ℚ := 0
  energy : ℚ := 0
  time : ℚ := 0
  deriving DecidableEq

/-- Matching keys: concrete (origin location, destination location) pairs. -/
abbrev LKey := GridLocation × GridLocation

/-- `Agent`: locations by type, trip needs, and a travel plan.  The location
mapping is embedded as a total function, per the spec §3 invariant that it
contains every role referenced by a Need before matching is attempted. -/
structure Agent where
  location : LocationType → GridLocation
  need : List Need
  plan : List Alternative

/-- Resolved key of a need: `(self.location[n.origin], self.location[n.destination])`. -/
def needKey (a : Agent) (n : Need) : LKey :=
  (a.location n.origin, a.location n.destination)

/-- Key of a planned alternative: `(a.origin, a.destination)`. -/
def altKey (alt : Alternative) : LKey :=
  (alt.origin, alt.destination)

/-- First phase of `Agent.iter_np`: the dict comprehension
`{(loc[n.origin], loc[n.destination]): (n, None) for n in self.need}`. -/
def needStep (a : Agent) (t : List (LKey × (Option Need × Option Alternative)))
    (n : Need) : List (LKey × (Option Need × Option Alternative)) :=
  dictInsert t (needKey a n) (some n, none)

/-- Second phase of `Agent.iter_np`: attach a planned alternative to the
table, preserving the entry's Need when the key is already present. -/
def planStep (t : List (LKey × (Option Need × Option Alternative)))
    (alt : Alternative) : List (LKey × (Option Need × Option Alternative)) :=
  match tableLookup t (altKey alt) with
  | some entry => dictInsert t (altKey alt) (entry.1, some alt)
  | none => dictInsert t (altKey alt) (none, some alt)

/-- The keyed table built inside `Agent.iter_np`. -/
def Agent.iterTable (a : Agent) : List (LKey × (Option Need × Option Alternative)) :=
  a.plan.foldl planStep (a.need.foldl (needStep a) [])

/-- `Agent.iter_np`: yield the `(Need-or-absent, Alternative-or-absent)`
values of the keyed table. -/
def Agent.iter_np (a : Agent) : List (Option Need × Option Alternative) :=
  a.iterTable.map Prod.snd

/-- `Agent.has_decent_mobility`: `False` as soon as some pair has a Need
(any Need object is truthy in Python) and no Alternative. -/
def Agent.has_decent_mobility (a : Agent) : Bool :=
  a.iter_np.all fun p => !(p.1.isSome && p.2.isNone)

/-- `Agent.total_distance`: accumulate `need.count * alternative.distance`
over the pairs of `iter_np`, skipping pairs with either side absent. -/
def Agent.total_distance (a : Agent) : ℚ :=
  a.iter_np.foldl
    (fun acc p =>
      match p with
      | (some n, some alt) => acc + n.count * alt.distance
      | _ => acc)
    0

/-- Contribution of one matched pair to `total_distance`. -/
def pairDistance (p : Option Need × Option Alternative) : ℚ :=
  match p with
  | (some n, some alt) => (n.count : ℚ) * alt.distance
  | _ => 0

/-- The last need of the agent resolving to key `k`, if any. -/
def Agent.lastNeedFor (a : Agent) (k : LKey) : Option Need :=
  lastMatch (fun n => decide (needKey a n = k)) a.need

/-- The last planned alternative of the agent with key `k`, if any. -/
def Agent.lastAltFor (a : Agent) (k : LKey) : Option Alternative :=
  lastMatch (fun alt => decide (altKey alt = k)) a.plan

/-- Need component of a table entry, `none` when the key is absent. -/
def needPart : Option (Option Need × Option Alternative) → Option Need
  | some entry => entry.1
  | none => none

theorem planStep_eq (t : List (LKey × (Option Need × Option Alternative)))
    (alt : Alternative) :
    planStep t alt =
      dictInsert t (altKey alt) (needPart (tableLookup t (altKey alt)), some alt) := by
  rw [planStep]
  cases tableLookup t (altKey alt) <;> rfl

theorem needFold_lookup (a : Agent) (needs : List Need)
    (t : List (LKey × (Option Need × Option Alternative))) (k : LKey) :
    tableLookup (needs.foldl (needStep a) t) k =
      match lastMatch (fun n => decide (needKey a n = k)) needs with
      | some n => some (some n, none)
      | none => tableLookup t k := by
  induction needs generalizing t with
  | nil => rfl
  | cons n rest ih =>
    rw [List.foldl_cons, ih]
    cases hr : lastMatch (fun n => decide (needKey a n = k)) rest with
    | some m => simp [lastMatch, hr]
    | none =>
      by_cases hk : needKey a n = k
      · simp [lastMatch, hr, hk, needStep, tableLookup_dictInsert_self]
      · simp [lastMatch, hr, hk, needStep,
          tableLookup_dictInsert_ne _ _ _ _ (Ne.symm hk)]

theorem needPart_planStep (t : List (LKey × (Option Need × Option Alternative)))
    (alt : Alternative) (k : LKey) :
    needPart (tableLookup (planStep t alt) k) = needPart (tableLookup t k) := by
  rw [planStep_eq]
  by_cases hk : altKey alt = k
  · subst hk
    rw [tableLookup_dictInsert_self]
    rfl
  · rw [tableLookup_dictInsert_ne _ _ _ _ (Ne.symm hk)]

theorem planFold_lookup (plan : List Alternative)
    (t : List (LKey × (Option Need × Option Alternative))) (k : LKey) :
    tableLookup (plan.foldl planStep t) k =
      match lastMatch (fun alt => decide (altKey alt = k)) plan with
      | some alt => some (needPart (tableLookup t k), some alt)
      | none => tableLookup t k := by
  induction plan generalizing t with
  | nil => rfl
  | cons alt rest ih =>
    rw [List.foldl_cons, ih]
    cases hr : lastMatch (fun alt => decide (altKey alt = k)) rest with
    | some alt₂ => simp [lastMatch, hr, needPart_planStep]
    | none =>
      by_cases hk : altKey alt = k
      · simp [lastMatch, hr, hk, planStep_eq, tableLookup_dictInsert_self, needPart]
      · simp [lastMatch, hr, hk, planStep_eq,
          tableLookup_dictInsert_ne _ _ _ _ (Ne.symm hk)]

theorem iterTable_lookup (a : Agent) (k : LKey) :
    tableLookup a.iterTable k =
      match a.lastNeedFor k, a.lastAltFor k with
      | none, none => none
      | needOpt, altOpt => some (needOpt, altOpt) := by
  rw [Agent.iterTable, Agent.lastNeedFor, Agent.lastAltFor, planFold_lookup,
    needFold_lookup]
  cases hA : lastMatch (fun alt => decide (altKey alt = k)) a.plan <;>
    cases hN : lastMatch (fun n => decide (needKey a n = k)) a.need <;>
      simp [needPart, tableLookup]

theorem nodup_keys_needFold (a : Agent) (needs : List Need)
    (t : List (LKey × (Option Need × Option Alternative)))
    (h : (t.map Prod.fst).Nodup) :
    ((needs.foldl (needStep a) t).map Prod.fst).Nodup := by
  induction needs generalizing t with
  | nil => exact h
  | cons n rest ih => exact ih _ (nodup_keys_dictInsert _ _ _ h)

theorem nodup_keys_planFold (plan : List Alternative)
    (t : List (LKey × (Option Need × Option Alternative)))
    (h : (t.map Prod.fst).Nodup) :
    ((plan.foldl planStep t).map Prod.fst).Nodup := by
  induction plan generalizing t with
  | nil => exact h
  | cons alt rest ih =>
    refine ih _ ?_
    rw [planStep_eq]
    exact nodup_keys_dictInsert _ _ _ h

theorem nodup_keys_iterTable (a : Agent) : (a.iterTable.map Prod.fst).Nodup :=
  nodup_keys_planFold _ _ (nodup_keys_needFold a _ [] (by simp))

theorem tableLookup_eq_some_of_mem {K V : Type} [DecidableEq K]
    {t : List (K × V)} (h : (t.map Prod.fst).Nodup) {k : K} {v : V}
    (hmem : (k, v) ∈ t) : tableLookup t k = some v := by
  induction t with
  | nil => simp at hmem
  | cons hd rest ih =>
    obtain ⟨k₂, v₂⟩ := hd
    rcases List.mem_cons.mp hmem with h₂ | h₂
    · cases h₂
      simp [tableLookup]
    · rw [List.map_cons] at h
      obtain ⟨hnotmem, hnd⟩ := List.nodup_cons.mp h
      have hk : k₂ ≠ k := by
        rintro rfl
        exact hnotmem (List.mem_map.mpr ⟨(k₂, v), h₂, rfl⟩)
      simp only [tableLookup, hk, if_false]
      exact ih hnd h₂

theorem mem_iter_np_iff (a : Agent) (p : Option Need × Option Alternative) :
    p ∈ a.iter_np ↔ ∃ k, tableLookup a.iterTable k = some p := by
  constructor
  · intro hp
    obtain ⟨⟨k, q⟩, hmem, rfl⟩ := List.mem_map.mp hp
    exact ⟨k, tableLookup_eq_some_of_mem (nodup_keys_iterTable a) hmem⟩
  · rintro ⟨k, hk⟩
    exact List.mem_map.mpr ⟨(k, p), tableLookup_mem hk, rfl⟩

/-- C1: for every agent, `iter_np` produces one (Need-or-absent,
Alternative-or-absent) pair per distinct resolved (origin, destination) key:
the table's keys are pairwise distinct, the entry at a key carries the last
need resolving to that key (later needs overwrite earlier ones) and the last
planned alternative with that key, a key with a need and no alternative
yields `(some need, none)`, one with an alternative and no need yields
`(none, some alt)`, and one with both yields a full pair; `iter_np`
yields exactly the table's values. -/
theorem c1_iter_np_matching_spec (a : Agent) :
    a.iter_np = a.iterTable.map Prod.snd ∧
    (a.iterTable.map Prod.fst).Nodup ∧
    (∀ p, p ∈ a.iter_np ↔ ∃ k, tableLookup a.iterTable k = some p) ∧
    ∀ k, tableLookup a.iterTable k =
      match a.lastNeedFor k, a.lastAltFor k with
      | none, none => none
      | needOpt, altOpt => some (needOpt, altOpt) :=
  ⟨rfl, nodup_keys_iterTable a, mem_iter_np_iff a, iterTable_lookup a⟩

/-- C2: `has_decent_mobility` is true iff every pair of `iter_np` has its
Need absent or its Alternative present; and once every need's resolved key
has a matching alternative in the plan, the agent has decent mobility. -/
theorem c2_has_decent_mobility_spec (a : Agent) :
    (a.has_decent_mobility = true ↔
      ∀ p ∈ a.iter_np, p.1 = none ∨ p.2.isSome) ∧
    ((∀ n ∈ a.need, ∃ alt ∈ a.plan, altKey alt = needKey a n) →
      a.has_decent_mobility = true) := by
  have h1 : a.has_decent_mobility = true ↔
      ∀ p ∈ a.iter_np, p.1 = none ∨ p.2.isSome := by
    rw [Agent.has_decent_mobility, List.all_eq_true]
    apply forall_congr'
    intro p
    apply imp_congr_right
    intro _
    obtain ⟨p1, p2⟩ := p
    cases p1 <;> cases p2 <;> simp
  refine ⟨h1, fun hcov => h1.mpr ?_⟩
  intro p hp
  obtain ⟨k, hk⟩ := (mem_iter_np_iff a p).mp hp
  rw [iterTable_lookup] at hk
  rcases hN : a.lastNeedFor k with _ | n <;>
    rcases hA : a.lastAltFor k with _ | alt <;>
      rw [hN, hA] at hk <;> simp only [Option.some_inj] at hk
  · cases hk
  · cases hk
    exact Or.inl rfl
  · exfalso
    obtain ⟨hmem, hpmatch⟩ := lastMatch_eq_some hN
    obtain ⟨alt, haltmem, haltkey⟩ := hcov n hmem
    have hkey : needKey a n = k := by simpa using hpmatch
    have : (a.lastAltFor k).isSome :=
      lastMatch_isSome haltmem (by simp [haltkey, hkey])
    rw [hA] at this
    simp at this
  · cases hk
    exact Or.inr rfl

/-- Concrete agent used to witness C2: two locations, one need home→work,
one matching alternative. -/
def agentW2 : Agent where
  location := fun lt =>
    match lt with
    | .home => ⟨0, 0⟩
    | .work => ⟨1, 0⟩
  need := [⟨.commute, .home, .work, 5⟩]
  plan := [{ origin := ⟨0, 0⟩, destination := ⟨1, 0⟩, mode := "bus", distance := 1 }]

/-- Witness for C2 at a concrete agent with one fully matched need. -/
theorem c2_has_decent_mobility_spec_witness : agentW2.has_decent_mobility = true :=
  (c2_has_decent_mobility_spec agentW2).2 (by decide)

theorem total_distance_foldl (l : List (Option Need × Option Alternative))
    (acc : ℚ) :
    l.foldl
      (fun acc p =>
        match p with
        | (some n, some alt) => acc + n.count * alt.distance
        | _ => acc)
      acc = acc + (l.map pairDistance).sum := by
  induction l generalizing acc with
  | nil => simp
  | cons p rest ih =>
    rw [List.foldl_cons, ih]
    obtain ⟨p1, p2⟩ := p
    cases p1 <;> cases p2
    · simp [pairDistance]
    · simp [pairDistance]
    · simp [pairDistance]
    · simp [pairDistance]
      ring

/-- C8: `total_distance` equals the sum over the matched pairs of `iter_np`
of `Need.count * Alternative.distance` (unmatched pairs contribute zero),
and it is zero when no pair is fully matched. -/
theorem c8_total_distance_spec (a : Agent) :
    a.total_distance = (a.iter_np.map pairDistance).sum ∧
    ((∀ p ∈ a.iter_np, p.1 = none ∨ p.2 = none) → a.total_distance = 0) := by
  have h1 : a.total_distance = (a.iter_np.map pairDistance).sum := by
    rw [Agent.total_distance, total_distance_foldl, zero_add]
  refine ⟨h1, fun h => ?_⟩
  rw [h1]
  apply List.sum_eq_zero
  intro x hx
  obtain ⟨p, hp, rfl⟩ := List.mem_map.mp hx
  obtain ⟨p1, p2⟩ := p
  rcases h _ hp with h2 | h2 <;> simp only at h2 <;> subst h2
  · cases p2 <;> simp [pairDistance]
  · cases p1 <;> simp [pairDistance]

/-- Concrete agent used to witness C8: one need and no plan, so no pair is
fully matched. -/
def agentW8 : Agent where
  location := fun lt =>
    match lt with
    | .home => ⟨0, 0⟩
    | .work => ⟨1, 0⟩
  need := [⟨.commute, .home, .work, 5⟩]
  plan := []

/-- Witness for C8 at a concrete agent with no fully matched pair. -/
theorem c8_total_distance_spec_witness : agentW8.total_distance = 0 :=
  (c8_total_distance_spec agentW8).2 (by decide)

/-- Concrete agent for C9: a single zero-count need with no matching
alternative in the (empty) plan. -/
def agentC9 : Agent where
  location := fun lt =>
    match lt with
    | .home => ⟨0, 0⟩
    | .work => ⟨1, 0⟩
  need := [⟨.commute, .home, .work, 0⟩]
  plan := []

/-- C9 counterexample: an agent all of whose needs have count zero and whose
plan is empty does NOT have decent mobility — a zero-count need is not
vacuously satisfied by `Agent.has_decent_mobility`, which tests only the
presence of a matching alternative, never `Need.count`. -/
theorem c9_zero_count_counterexample :
    (∀ n ∈ agentC9.need, n.count = 0) ∧ agentC9.plan = [] ∧
      agentC9.has_decent_mobility = false := by
  refine ⟨by decide, rfl, by decide⟩

/-- C9 amended: a need whose resolved key has no matching alternative in the
plan makes `has_decent_mobility` false regardless of its count, including
count zero — a zero-count need is not vacuously satisfied. -/
theorem c9_unmatched_need_not_decent (a : Agent) (n : Need)
    (hmem : n ∈ a.need)
    (hnone : ∀ alt ∈ a.plan, altKey alt ≠ needKey a n) :
    a.has_decent_mobility = false := by
  have hA : a.lastAltFor (needKey a n) = none := by
    apply lastMatch_eq_none
    intro alt halt
    simpa using hnone alt halt
  have hN : (a.lastNeedFor (needKey a n)).isSome :=
    lastMatch_isSome hmem (by simp)
  obtain ⟨n₂, hn₂⟩ := Option.isSome_iff_exists.mp hN
  have hk : tableLookup a.iterTable (needKey a n) = some (some n₂, none) := by
    rw [iterTable_lookup, hn₂, hA]
  have hpmem : (some n₂, none) ∈ a.iter_np :=
    (mem_iter_np_iff a _).mpr ⟨_, hk⟩
  cases hall : a.has_decent_mobility with
  | false => rfl
  | true =>
    exfalso
    have := List.all_eq_true.mp (by rw [Agent.has_decent_mobility] at hall; exact hall)
      _ hpmem
    simp at this

/-- Witness for the amended C9 at the concrete zero-count agent. -/
theorem c9_unmatched_need_not_decent_witness : agentC9.has_decent_mobility = false :=
  c9_unmatched_need_not_decent agentC9 ⟨.commute, .home, .work, 0⟩ (by decide)
    (by decide)

end Mobility

namespace PersonaMod

/-- `Alternative` of `src/mobility/alternative.py`: a travel alternative to a
named destination. -/
structure Alternative where
  destination : String
  mode : String
  distance : ℚ
  time : ℚ
  energy_demand : ℚ
  deriving DecidableEq

instance : Inhabited Alternative :=
  ⟨⟨"", "", 0, 0, 0⟩⟩

/-- Error kinds raised by `Persona.compute_trips`.  In the Python source the
first two are `ValueError`s distinguished by their message and the last is
the `NotImplementedError` raised by `Persona._select_min_energy_typ_time`. -/
inductive SelError where
  | noFeasibleAlternative (destination : String)
  | unsupportedMethod (method : String)
  | notImplemented
  deriving DecidableEq

/-- `Persona` of `src/mobility/persona.py`.  Its `demand` dict is embedded as
an insertion-ordered association list (Python dict keys are unique and
iterated in insertion order). -/
structure Persona where
  name : String
  typ_travel_time : ℚ
  demand : List (String × Nat)
  deriving DecidableEq

/-- The filtered candidate list of `compute_trips`:
alternatives matching the destination whose mode is not unavailable. -/
def feasibleAlternatives (alternatives : List Alternative)
    (modes_unavailable : List String) (destination : String) : List Alternative :=
  alternatives.filter fun alt =>
    decide (alt.destination = destination) && !(modes_unavailable.contains alt.mode)

/-- `random.choices(population, k=count)`: `count` independent uniform draws
with replacement.  The draws are determined by the explicit index stream
`pick`; quantifying over `pick` covers every possible random outcome. -/
def randomChoices (population : List Alternative) (count : Nat)
    (pick : Nat → Nat) : List Alternative :=
  (List.range count).map fun j => population.getD (pick j % population.length) default

/-- `Persona._select_min_energy_typ_time`: its body raises
`NotImplementedError` before any other statement, for every input. -/
def selectMinEnergyTypTime (_alternatives : List Alternative) (_count : Nat) :
    Except SelError (List Alternative) :=
  .error .notImplemented

/-- The destination loop of `Persona.compute_trips`, processing the demand
entries in order; `i` indexes the destination for the random stream. -/
def computeTripsFrom (alternatives : List Alternative) (method : String)
    (modes_unavailable : List String) (pick : Nat → Nat → Nat) :
    List (String × Nat) → Nat → Except SelError (List (String × List Alternative))
  | [], _ => .ok []
  | (destination, count) :: rest, i =>
    let destinationAlternatives :=
      feasibleAlternatives alternatives modes_unavailable destination
    if destinationAlternatives.isEmpty then
      .error (.noFeasibleAlternative destination)
    else if method = "random" then
      match computeTripsFrom alternatives method modes_unavailable pick rest (i + 1) with
      | .error e => .error e
      | .ok ts =>
        .ok ((destination, randomChoices destinationAlternatives count (pick i)) :: ts)
    else if method = "min_energy_typ_time" then
      match selectMinEnergyTypTime destinationAlternatives count with
      | .error e => .error e
      | .ok sel =>
        match computeTripsFrom alternatives method modes_unavailable pick rest (i + 1) with
        | .error e => .error e
        | .ok ts => .ok ((destination, sel) :: ts)
    else
      .error (.unsupportedMethod method)

/-- `Persona.compute_trips`: on success, the persona's `trips` dict maps each
demanded destination to the list of selected alternatives. -/
def Persona.compute_trips (p : Persona) (alternatives : List Alternative)
    (method : String) (modes_unavailable : List String)
    (pick : Nat → Nat → Nat) : Except SelError (List (String × List Alternative)) :=
  computeTripsFrom alternatives method modes_unavailable pick p.demand 0

theorem mem_of_mem_randomChoices {population : List Alternative} {count : Nat}
    {pick : Nat → Nat} {alt : Alternative} (hne : population ≠ [])
    (h : alt ∈ randomChoices population count pick) : alt ∈ population := by
  obtain ⟨j, _, rfl⟩ := List.mem_map.mp h
  have hpos : 0 < population.length := List.length_pos.mpr hne
  have hlt : pick j % population.length < population.length := Nat.mod_lt _ hpos
  rw [List.getD_eq_getElem?_getD, List.getElem?_eq_getElem hlt, Option.getD_some]
  exact List.getElem_mem hlt

theorem length_randomChoices (population : List Alternative) (count : Nat)
    (pick : Nat → Nat) : (randomChoices population count pick).length = count := by
  simp [randomChoices]

theorem mem_feasibleAlternatives {alternatives : List Alternative}
    {modes_unavailable : List String} {destination : String} {alt : Alternative}
    (h : alt ∈ feasibleAlternatives alternatives modes_unavailable destination) :
    alt.destination = destination ∧ alt.mode ∉ modes_unavailable ∧
      alt ∈ alternatives := by
  obtain ⟨hmem, hprop⟩ := List.mem_filter.mp h
  obtain ⟨h1, h2⟩ := (Bool.and_eq_true _ _).mp hprop
  refine ⟨of_decide_eq_true h1, ?_, hmem⟩
  simp at h2
  exact h2

theorem computeTripsFrom_random_ok (alternatives : List Alternative)
    (modes_unavailable : List String) (pick : Nat → Nat → Nat)
    (demand : List (String × Nat)) (i : Nat)
    (result : List (String × List Alternative))
    (h : computeTripsFrom alternatives "random" modes_unavailable pick demand i =
      .ok result) :
    List.Forall₂
      (fun dc entry =>
        entry.1 = dc.1 ∧ entry.2.length = dc.2 ∧
        ∀ alt ∈ entry.2, alt.destination = dc.1 ∧ alt.mode ∉ modes_unavailable ∧
          alt ∈ alternatives)
      demand result := by
  induction demand generalizing i result with
  | nil =>
    simp only [computeTripsFrom] at h
    injection h with h
    subst h
    exact List.Forall₂.nil
  | cons dc rest ih =>
    obtain ⟨destination, count⟩ := dc
    simp only [computeTripsFrom] at h
    by_cases hfe :
        (feasibleAlternatives alternatives modes_unavailable destination).isEmpty
    · rw [if_pos hfe] at h
      cases h
    · rw [if_neg hfe] at h
      simp only [if_true] at h
      cases hrec : computeTripsFrom alternatives "random" modes_unavailable pick
          rest (i + 1) with
      | error e =>
        rw [hrec] at h
        cases h
      | ok ts =>
        rw [hrec] at h
        injection h with h
        subst h
        refine List.Forall₂.cons ⟨rfl, length_randomChoices _ _ _, ?_⟩ (ih _ _ hrec)
        intro alt halt
        have hne : feasibleAlternatives alternatives modes_unavailable destination ≠ [] := by
          intro hcon
          rw [hcon] at hfe
          simp at hfe
        exact mem_feasibleAlternatives (mem_of_mem_randomChoices hne halt)

/-- C3: whenever `compute_trips` with the uniform-random method returns a
result — for any demand, catalog, unavailable-mode set and random draws —
that result pairs each demanded destination, in order, with exactly the
demanded count of alternatives, each of which targets that destination, uses
no unavailable mode, and comes from the catalog (repetition permitted). -/
theorem c3_compute_trips_random_spec (p : Persona) (alternatives : List Alternative)
    (modes_unavailable : List String) (pick : Nat → Nat → Nat)
    (result : List (String × List Alternative))
    (h : p.compute_trips alternatives "random" modes_unavailable pick = .ok result) :
    List.Forall₂
      (fun dc entry =>
        entry.1 = dc.1 ∧ entry.2.length = dc.2 ∧
        ∀ alt ∈ entry.2, alt.destination = dc.1 ∧ alt.mode ∉ modes_unavailable ∧
          alt ∈ alternatives)
      p.demand result :=
  computeTripsFrom_random_ok alternatives modes_unavailable pick p.demand 0 result h

/-- Concrete persona used in witnesses: one destination demanding two trips. -/
def personaW : Persona :=
  ⟨"w", 30, [("work", 2)]⟩

/-- Concrete catalog alternative used in witnesses. -/
def altW : Alternative :=
  ⟨"work", "bus", 1, 10, 2⟩

/-- Witness for C3 at a concrete persona, catalog and random stream. -/
theorem c3_compute_trips_random_spec_witness :
    List.Forall₂
      (fun dc entry =>
        entry.1 = dc.1 ∧ entry.2.length = dc.2 ∧
        ∀ alt ∈ entry.2, alt.destination = dc.1 ∧ alt.mode ∉ ([] : List String) ∧
          alt ∈ [altW])
      personaW.demand [("work", [altW, altW])] :=
  c3_compute_trips_random_spec personaW [altW] [] (fun _ _ => 0)
    [("work", [altW, altW])] (by rfl)

/-- C4 (code bug): `Persona._select_min_energy_typ_time` raises
`NotImplementedError` unconditionally — its `raise` precedes the whole
optimization body — so the min-energy method of `compute_trips` fails on
every input (here evaluated at a feasible input of the kind the repository's
own test `test_compute_trips_min_energy_typ_time` expects to succeed),
instead of returning a count-sized minimal-energy selection within the time
bound or an InfeasibleSelection failure. -/
theorem c4_min_energy_not_implemented :
    personaW.compute_trips [altW] "min_energy_typ_time" [] (fun _ _ => 0) =
      .error .notImplemented ∧
    ∀ (alternatives : List Alternative) (count : Nat),
      selectMinEnergyTypTime alternatives count = .error .notImplemented :=
  ⟨rfl, fun _ _ => rfl⟩

/-- Concrete persona for the C5 counterexample: two demanded destinations. -/
def personaC5 : Persona :=
  ⟨"c5", 30, [("a", 1), ("b", 1)]⟩

/-- C5 counterexample: destination "b" has nonzero demand and no feasible
alternative (the catalog is empty), yet the NoFeasibleAlternative error does
not name "b" — it names "a", the first infeasible destination in demand
order. -/
theorem c5_no_feasible_counterexample :
    ("b", 1) ∈ personaC5.demand ∧ (1 : Nat) ≠ 0 ∧
    feasibleAlternatives [] [] "b" = [] ∧
    personaC5.compute_trips [] "random" [] (fun _ _ => 0) =
      .error (.noFeasibleAlternative "a") ∧
    SelError.noFeasibleAlternative "a" ≠ SelError.noFeasibleAlternative "b" :=
  ⟨by decide, by decide, rfl, rfl, by decide⟩

theorem computeTripsFrom_first_infeasible (alternatives : List Alternative)
    (modes_unavailable : List String) (pick : Nat → Nat → Nat)
    (demand : List (String × Nat)) (i : Nat) (d : String) (c : Nat)
    (hmem : (d, c) ∈ demand)
    (hinf : feasibleAlternatives alternatives modes_unavailable d = []) :
    ∃ d₂, computeTripsFrom alternatives "random" modes_unavailable pick demand i =
        .error (.noFeasibleAlternative d₂) ∧
      feasibleAlternatives alternatives modes_unavailable d₂ = [] := by
  induction demand generalizing i with
  | nil => simp at hmem
  | cons dc rest ih =>
    obtain ⟨d₀, c₀⟩ := dc
    by_cases hfe : (feasibleAlternatives alternatives modes_unavailable d₀).isEmpty
    · refine ⟨d₀, ?_, List.isEmpty_iff.mp hfe⟩
      simp only [computeTripsFrom]
      rw [if_pos hfe]
    · have hmem₂ : (d, c) ∈ rest := by
        rcases List.mem_cons.mp hmem with hh | hh
        · exfalso
          injection hh with h1 h2
          subst h1
          exact hfe (by rw [hinf]; rfl)
        · exact hh
      obtain ⟨d₂, hres, hinf₂⟩ := ih (i + 1) hmem₂
      refine ⟨d₂, ?_, hinf₂⟩
      simp only [computeTripsFrom]
      rw [if_neg hfe]
      simp only [if_true]
      rw [hres]

theorem computeTripsFrom_unique_infeasible (alternatives : List Alternative)
    (modes_unavailable : List String) (pick : Nat → Nat → Nat)
    (demand : List (String × Nat)) (i : Nat) (d : String) (c : Nat)
    (hmem : (d, c) ∈ demand)
    (hinf : feasibleAlternatives alternatives modes_unavailable d = [])
    (hothers : ∀ d₂ c₂, (d₂, c₂) ∈ demand → d₂ ≠ d →
      feasibleAlternatives alternatives modes_unavailable d₂ ≠ []) :
    computeTripsFrom alternatives "random" modes_unavailable pick demand i =
      .error (.noFeasibleAlternative d) := by
  induction demand generalizing i with
  | nil => simp at hmem
  | cons dc rest ih =>
    obtain ⟨d₀, c₀⟩ := dc
    by_cases hd₀ : d₀ = d
    · subst hd₀
      simp only [computeTripsFrom]
      rw [if_pos (by rw [hinf]; rfl)]
    · have hmem₂ : (d, c) ∈ rest := by
        rcases List.mem_cons.mp hmem with hh | hh
        · exfalso
          injection hh with h1 h2
          exact hd₀ h1.symm
        · exact hh
      have hfe : ¬(feasibleAlternatives alternatives modes_unavailable d₀).isEmpty := by
        intro hcon
        exact hothers d₀ c₀ (List.mem_cons_self _ _) hd₀ (List.isEmpty_iff.mp hcon)
      simp only [computeTripsFrom]
      rw [if_neg hfe]
      simp only [if_true]
      rw [ih (i + 1) hmem₂ (fun d₂ c₂ h₂ => hothers d₂ c₂ (List.mem_cons_of_mem _ h₂))]

theorem computeTripsFrom_all_excluded (alternatives : List Alternative)
    (modes_unavailable : List String) (pick : Nat → Nat → Nat) (method : String)
    (d₀ : String) (c₀ : Nat) (rest : List (String × Nat)) (i : Nat)
    (hall : ∀ alt ∈ alternatives, alt.mode ∈ modes_unavailable) :
    computeTripsFrom alternatives method modes_unavailable pick
        ((d₀, c₀) :: rest) i = .error (.noFeasibleAlternative d₀) := by
  have hinf : feasibleAlternatives alternatives modes_unavailable d₀ = [] := by
    rw [feasibleAlternatives, List.filter_eq_nil_iff]
    intro alt halt
    simp [hall alt halt]
  simp only [computeTripsFrom]
  rw [if_pos (by rw [hinf]; rfl)]

/-- C5 amended: if a destination of the demand has no feasible candidate
(destination-matching, mode not unavailable), selection with the implemented
random method fails with NoFeasibleAlternative naming the first such
destination in demand order — which is the given destination whenever it is
the only infeasible one; and excluding all the catalog's modes makes every
call, whatever its method string, fail with NoFeasibleAlternative naming the
first demanded destination, because the feasibility check precedes method
dispatch. -/
theorem c5_no_feasible_spec (p : Persona) (alternatives : List Alternative)
    (modes_unavailable : List String) (pick : Nat → Nat → Nat) (d : String)
    (c : Nat) (hmem : (d, c) ∈ p.demand) (_hc : c ≠ 0)
    (hinf : feasibleAlternatives alternatives modes_unavailable d = []) :
    (∃ d₂, p.compute_trips alternatives "random" modes_unavailable pick =
        .error (.noFeasibleAlternative d₂) ∧
      feasibleAlternatives alternatives modes_unavailable d₂ = []) ∧
    ((∀ d₂ c₂, (d₂, c₂) ∈ p.demand → d₂ ≠ d →
        feasibleAlternatives alternatives modes_unavailable d₂ ≠ []) →
      p.compute_trips alternatives "random" modes_unavailable pick =
        .error (.noFeasibleAlternative d)) ∧
    ∀ method, (∀ alt ∈ alternatives, alt.mode ∈ modes_unavailable) →
      ∃ d₂ c₂ rest, p.demand = (d₂, c₂) :: rest ∧
        p.compute_trips alternatives method modes_unavailable pick =
          .error (.noFeasibleAlternative d₂) := by
  refine ⟨?_, ?_, ?_⟩
  · exact computeTripsFrom_first_infeasible alternatives modes_unavailable pick
      p.demand 0 d c hmem hinf
  · intro hothers
    exact computeTripsFrom_unique_infeasible alternatives modes_unavailable pick
      p.demand 0 d c hmem hinf hothers
  · intro method hall
    cases hd : p.demand with
    | nil =>
      rw [hd] at hmem
      simp at hmem
    | cons dc rest =>
      obtain ⟨d₂, c₂⟩ := dc
      refine ⟨d₂, c₂, rest, rfl, ?_⟩
      rw [Persona.compute_trips, hd]
      exact computeTripsFrom_all_excluded alternatives modes_unavailable pick
        method d₂ c₂ rest 0 hall

/-- Concrete persona for the C5 witness: one infeasible destination. -/
def personaW5 : Persona :=
  ⟨"w5", 30, [("a", 1)]⟩

/-- Witness for the amended C5 at a concrete persona with an empty catalog. -/
theorem c5_no_feasible_spec_witness :
    (∃ d₂, personaW5.compute_trips [] "random" [] (fun _ _ => 0) =
        .error (.noFeasibleAlternative d₂) ∧
      feasibleAlternatives [] [] d₂ = []) ∧
    ((∀ d₂ c₂, (d₂, c₂) ∈ personaW5.demand → d₂ ≠ "a" →
        feasibleAlternatives [] [] d₂ ≠ []) →
      personaW5.compute_trips [] "random" [] (fun _ _ => 0) =
        .error (.noFeasibleAlternative "a")) ∧
    ∀ method, (∀ alt ∈ ([] : List Alternative), alt.mode ∈ ([] : List String)) →
      ∃ d₂ c₂ rest, personaW5.demand = (d₂, c₂) :: rest ∧
        personaW5.compute_trips [] method [] (fun _ _ => 0) =
          .error (.noFeasibleAlternative d₂) :=
  c5_no_feasible_spec personaW5 [] [] (fun _ _ => 0) "a" 1 (by decide) (by decide) rfl

/-- Concrete persona for the C6 counterexample: an empty demand. -/
def personaC6 : Persona :=
  ⟨"c6", 30, []⟩

/-- C6 counterexample: with an empty demand, the destination loop never runs,
so calling the selector with an unrecognized method string returns
successfully instead of failing with UnsupportedMethod — the failure is not
independent of the demand contents. -/
theorem c6_unsupported_counterexample :
    "blabla" ≠ "random" ∧ "blabla" ≠ "min_energy_typ_time" ∧
    personaC6.compute_trips [] "blabla" [] (fun _ _ => 0) = .ok [] :=
  ⟨by decide, by decide, rfl⟩

/-- C6 amended: an unrecognized method string fails with UnsupportedMethod
naming that string whenever the demand is nonempty and its first destination
has at least one feasible candidate; with an empty demand the call succeeds
without consulting the method, and a first destination with no feasible
candidate fails with NoFeasibleAlternative before the method is examined. -/
theorem c6_unsupported_spec (p : Persona) (alternatives : List Alternative)
    (modes_unavailable : List String) (pick : Nat → Nat → Nat) (method : String)
    (d₀ : String) (c₀ : Nat) (rest : List (String × Nat))
    (hm1 : method ≠ "random") (hm2 : method ≠ "min_energy_typ_time")
    (hd : p.demand = (d₀, c₀) :: rest)
    (hfeas : feasibleAlternatives alternatives modes_unavailable d₀ ≠ []) :
    p.compute_trips alternatives method modes_unavailable pick =
      .error (.unsupportedMethod method) := by
  rw [Persona.compute_trips, hd]
  simp only [computeTripsFrom]
  rw [if_neg (fun hcon => hfeas (List.isEmpty_iff.mp hcon)), if_neg hm1, if_neg hm2]

/-- Concrete persona for the C6 witness: one feasible destination. -/
def personaW6 : Persona :=
  ⟨"w6", 30, [("work", 1)]⟩

/-- Witness for the amended C6 at a concrete persona and catalog. -/
theorem c6_unsupported_spec_witness :
    personaW6.compute_trips [altW] "blabla" [] (fun _ _ => 0) =
      .error (.unsupportedMethod "blabla") :=
  c6_unsupported_spec personaW6 [altW] [] (fun _ _ => 0) "blabla" "work" 1 []
    (by decide) (by decide) rfl (by decide)

end PersonaMod

namespace Retreat

/-- Enumeration `Gender = Enum("Gender", "FLINT* male")` (the first member's
Python name `FLINT*` is not a legal Lean identifier). -/
inductive Gender where
  | flint
  | male
  deriving DecidableEq

/-- Enumeration `Purpose = Enum("Purpose", "work leisure")`. -/
inductive Purpose where
  | work
  | leisure
  deriving DecidableEq

/-- Iteration order of `for p in Purpose`: enum definition order. -/
def purposeList : List Purpose :=
  [.work, .leisure]

/-- `POI`: a point of interest serving one purpose. -/
structure POI where
  needs_served : Purpose
  deriving DecidableEq

/-- `Trip` of `retreat.py`: a single realized trip. -/
structure Trip where
  distance : ℚ
  time : ℚ
  destination : POI
  deriving DecidableEq

/-- `TravelPlan`: trips over a covered period (default 7 days). -/
structure TravelPlan where
  period_covered : ℤ := 7
  trips : List Trip
  deriving DecidableEq

/-- `Person`: its `trip_needs` dict (default empty) is embedded as a partial
map `Purpose → Option ℤ`; `none` means the key is absent and indexing it
raises `KeyError`. -/
structure Person where
  gender : Gender
  trip_needs : Purpose → Option ℤ := fun _ => none

/-- `TIME_BUDGET = 1.2` hours per day, modelled exactly over `ℚ`. -/
def TIME_BUDGET : ℚ :=
  12 / 10

/-- `travel_time(tp)`: sum of the trip times. -/
def travel_time (tp : TravelPlan) : ℚ :=
  (tp.trips.map fun t => t.time).sum

/-- `trip_count(tp, purpose)`: number of trips whose destination serves the
purpose. -/
def trip_count (tp : TravelPlan) (purpose : Purpose) : ℤ :=
  (tp.trips.countP fun t => decide (t.destination.needs_served = purpose) : ℕ)

/-- Exceptions that `has_decent_mobility` can raise: `KeyError` from
`needs[p]` on a missing purpose, and `ZeroDivisionError` from dividing by
`tp.period_covered`. -/
inductive RtError where
  | keyError (purpose : Purpose)
  | zeroDivisionError
  deriving DecidableEq

/-- The generator `all(counts[p] >= needs[p] for p in Purpose)`: lazily
checks the purposes in order, raising `KeyError` at the first purpose absent
from `needs` that evaluation reaches, and stopping early (without touching
the remaining purposes) at the first failing comparison. -/
def needsAll (needs : Purpose → Option ℤ) (counts : Purpose → ℤ) :
    List Purpose → Except RtError Bool
  | [] => .ok true
  | p :: rest =>
    match needs p with
    | none => .error (.keyError p)
    | some req => if req ≤ counts p then needsAll needs counts rest else .ok false

/-- `has_decent_mobility(person, tp)` of `retreat.py`: needs satisfaction per
purpose and the daily travel-time budget.  `daily_time` is computed before
the needs generator is consumed, so a zero covered period raises
`ZeroDivisionError` first. -/
def has_decent_mobility (person : Person) (tp : TravelPlan) : Except RtError Bool :=
  let counts := fun p => trip_count tp p
  if tp.period_covered = 0 then .error .zeroDivisionError
  else
    let daily_time := travel_time tp / (tp.period_covered : ℚ)
    match needsAll person.trip_needs counts purposeList with
    | .error e => .error e
    | .ok b => .ok (b && decide (daily_time ≤ TIME_BUDGET))

theorem needsAll_total (needs : Purpose → Option ℤ) (counts : Purpose → ℤ)
    (l : List Purpose) (h : ∀ p ∈ l, (needs p).isSome) :
    needsAll needs counts l =
      .ok (decide (∀ p ∈ l, ∀ req, needs p = some req → req ≤ counts p)) := by
  induction l with
  | nil => simp [needsAll]
  | cons p rest ih =>
    have hp := h p (List.mem_cons_self _ _)
    obtain ⟨req, hreq⟩ := Option.isSome_iff_exists.mp hp
    simp only [needsAll, hreq]
    by_cases hle : req ≤ counts p
    · rw [if_pos hle, ih fun q hq => h q (List.mem_cons_of_mem _ hq)]
      congr 1
      simp only [decide_eq_decide, List.mem_cons]
      constructor
      · intro hall q hq req₂ hreq₂
        rcases hq with rfl | hq
        · rw [hreq] at hreq₂
          injection hreq₂ with hreq₂
          subst hreq₂
          exact hle
        · exact hall q hq req₂ hreq₂
      · intro hall q hq req₂ hreq₂
        exact hall q (Or.inr hq) req₂ hreq₂
    · rw [if_neg hle]
      have hnot : ¬∀ q ∈ p :: rest, ∀ req₂, needs q = some req₂ → req₂ ≤ counts q := by
        intro hall
        exact hle (hall p (List.mem_cons_self _ _) req hreq)
      rw [decide_eq_false hnot]

/-- C7: whenever the person's `trip_needs` has an entry for every purpose and
the plan's covered period is nonzero, `has_decent_mobility` returns a
boolean, and it returns true iff the plan contains at least the needed
number of trips for every purpose and the total trip time divided by the
covered period does not exceed `TIME_BUDGET`. -/
theorem c7_has_decent_mobility_spec (person : Person) (tp : TravelPlan)
    (htotal : ∀ p, (person.trip_needs p).isSome)
    (hper : tp.period_covered ≠ 0) :
    (∃ b, has_decent_mobility person tp = .ok b) ∧
    (has_decent_mobility person tp = .ok true ↔
      (∀ p req, person.trip_needs p = some req → req ≤ trip_count tp p) ∧
      travel_time tp / (tp.period_covered : ℚ) ≤ TIME_BUDGET) := by
  have hall := needsAll_total person.trip_needs (fun p => trip_count tp p)
    purposeList (fun p _ => htotal p)
  rw [has_decent_mobility]
  simp only [if_neg hper, hall]
  constructor
  · exact ⟨_, rfl⟩
  · simp only [Except.ok.injEq, Bool.and_eq_true, decide_eq_true_eq]
    constructor
    · rintro ⟨h1, h2⟩
      refine ⟨?_, h2⟩
      intro p req hreq
      have hp : p ∈ purposeList := by cases p <;> simp [purposeList]
      exact h1 p hp req hreq
    · rintro ⟨h1, h2⟩
      exact ⟨fun p _ req hreq => h1 p req hreq, h2⟩

/-- Concrete person for the C7 witness: needs 1 work trip and 0 leisure
trips. -/
def personW7 : Person where
  gender := .male
  trip_needs := fun p =>
    match p with
    | .work => some 1
    | .leisure => some 0

/-- Concrete travel plan for the C7 witness: one short work trip in 7 days. -/
def tpW7 : TravelPlan where
  period_covered := 7
  trips := [⟨1, 1 / 10, ⟨.work⟩⟩]

/-- Witness for C7 at a concrete person and plan. -/
theorem c7_has_decent_mobility_spec_witness :
    (∃ b, has_decent_mobility personW7 tpW7 = .ok b) ∧
    (has_decent_mobility personW7 tpW7 = .ok true ↔
      (∀ p req, personW7.trip_needs p = some req → req ≤ trip_count tpW7 p) ∧
      travel_time tpW7 / (tpW7.period_covered : ℚ) ≤ TIME_BUDGET) :=
  c7_has_decent_mobility_spec personW7 tpW7 (fun p => by cases p <;> rfl)
    (by decide)

/-- Concrete person for the C10 counterexample: `trip_needs` lacks the
leisure purpose but has an unsatisfiable work entry. -/
def personC10 : Person where
  gender := .male
  trip_needs := fun p =>
    match p with
    | .work => some 1
    | .leisure => none

/-- Empty travel plan over the default 7-day period. -/
def tpC10 : TravelPlan where
  period_covered := 7
  trips := []

/-- C10 counterexample: this person's `trip_needs` lacks a purpose (leisure),
yet `has_decent_mobility` returns false instead of raising `KeyError`: the
work comparison fails first and Python's lazy `all(...)` short-circuits, so
`needs[leisure]` is never evaluated. -/
theorem c10_keyerror_counterexample :
    personC10.trip_needs .leisure = none ∧
    has_decent_mobility personC10 tpC10 = .ok false :=
  ⟨rfl, rfl⟩

/-- C10 amended: `has_decent_mobility` returns a boolean under the
precondition that `trip_needs` has an entry for every purpose; a person with
the default empty `trip_needs` raises `KeyError` (at the first purpose,
work); in general a missing purpose raises `KeyError` only when the lazy
purpose-order evaluation reaches it — when an earlier purpose's count check
fails, the call returns false without raising even though a later purpose is
missing. -/
theorem c10_keyerror_spec (person : Person) (tp : TravelPlan)
    (hper : tp.period_covered ≠ 0) :
    ((∀ p, person.trip_needs p = none) →
      has_decent_mobility person tp = .error (.keyError .work)) ∧
    (∀ req, person.trip_needs .work = some req → req ≤ trip_count tp .work →
      person.trip_needs .leisure = none →
      has_decent_mobility person tp = .error (.keyError .leisure)) ∧
    (∀ req, person.trip_needs .work = some req → ¬req ≤ trip_count tp .work →
      has_decent_mobility person tp = .ok false) := by
  refine ⟨?_, ?_, ?_⟩
  · intro hempty
    rw [has_decent_mobility]
    simp only [if_neg hper]
    simp [needsAll, purposeList, hempty .work]
  · intro req hreq hle hleisure
    rw [has_decent_mobility]
    simp only [if_neg hper]
    simp [needsAll, purposeList, hreq, hle, hleisure]
  · intro req hreq hle
    rw [has_decent_mobility]
    simp only [if_neg hper]
    simp [needsAll, purposeList, hreq, hle]

/-- Person with the default empty `trip_needs`, before adopting a persona. -/
def personW10 : Person where
  gender := .flint

/-- Witness for the amended C10: the default-constructed person raises
`KeyError` on the empty plan. -/
theorem c10_keyerror_spec_witness :
    has_decent_mobility personW10 tpC10 = .error (.keyError .work) :=
  (c10_keyerror_spec personW10 tpC10 (by decide)).1 fun _ => rfl

end Retreat

end DecentMobility
